import Mathlib

/-!
Verification of the case-cleaning pipeline of `src/case_cleaning.py`:
cell normalizer, chunk splitter and integrity validator, shallowly
embedded in Lean.  Tables are lists of rows; byte sizes of persisted
chunk files are modelled by an arbitrary function `sizeB` from the chunk
contents to a natural number of bytes (`os.path.getsize` is a
non-negative integer), and floating point arithmetic on megabyte counts
is modelled over `ℚ`.
-/

/-- Shrink step of `split_csv` (source lines 113-116): the overshoot
factor is `size_mb / max_allowed_size`, the new row count is
`int((end - start) / overshoot_factor)` raised to a minimum of 1.
`S k` is the persisted byte size of the chunk holding the first `k`
remaining rows, and `c` is the effective ceiling `max_size_mb * 0.99`.
Python `int` truncates toward zero; for a non-negative argument this is
the floor, and for a negative argument both the source (truncate, then
raise to 1) and this model (floor, `Int.toNat`, then `max 1`) yield 1. -/
def shrinkStep (S : ℕ → ℕ) (c : ℚ) (n : ℕ) : ℕ :=
  max 1 (Int.toNat ⌊(n : ℚ) / (((S n : ℚ) / (1024 * 1024)) / c)⌋)

/-- Inner `while size_mb > max_allowed_size and (end - start) > 1` loop of
`split_csv` (source lines 112-121), written with explicit fuel.  The loop
variable is the current chunk row count `n`; every executed iteration
replaces `n` by `shrinkStep S c n`.  Fuel `n` is always sufficient
because the row count strictly decreases (proved below), so the fuelled
function agrees with the source loop. -/
def shrinkGo (S : ℕ → ℕ) (c : ℚ) : ℕ → ℕ → ℕ
  | 0, n => n
  | fuel + 1, n =>
    if (S n : ℚ) / (1024 * 1024) > c ∧ 1 < n then
      shrinkGo S c fuel (shrinkStep S c n)
    else n

/-- Row count of the chunk finally persisted for the current cursor
position: the shrink loop run on the initially proposed row count. -/
def shrink_rows (S : ℕ → ℕ) (c : ℚ) (n : ℕ) : ℕ := shrinkGo S c n n

/-- Row count of the chunk recorded at cursor position `start`:
the proposal is `min (start + max_rows) rows - start` rows (source line
103), then the shrink loop runs with the persisted size of each
candidate slice. -/
def splitN {α : Type} (sizeB : List α → ℕ) (maxRows : ℕ) (c : ℚ)
    (df : List α) (start : ℕ) : ℕ :=
  shrink_rows (fun k => sizeB ((df.drop start).take k)) c
    (min (start + maxRows) df.length - start)

/-- Outer `while start < rows` loop of `split_csv` (source lines
102-126), with explicit fuel.  Each iteration records the chunk
`df[start : start + n]` for `n = splitN ... start` and advances the
cursor by `n`; fuel `df.length` is always sufficient because the cursor
advances by at least one row per iteration. -/
def splitGo {α : Type} (sizeB : List α → ℕ) (maxRows : ℕ) (c : ℚ)
    (df : List α) : ℕ → ℕ → List (List α)
  | 0, _ => []
  | fuel + 1, start =>
    if start < df.length then
      (df.drop start).take (splitN sizeB maxRows c df start) ::
        splitGo sizeB maxRows c df fuel (start + splitN sizeB maxRows c df start)
    else []

/-- Model of `split_csv(df, base_name, output_dir, max_rows, max_size_mb)`
(source lines 94-126), returning the ordered list of persisted chunks.
The effective byte ceiling is `max_size_mb * 0.99` (source line 98). -/
def split_csv {α : Type} (sizeB : List α → ℕ) (maxRows : ℕ) (maxMB : ℚ)
    (df : List α) : List (List α) :=
  splitGo sizeB maxRows (maxMB * (99 / 100)) df df.length 0

lemma shrinkStep_pos (S : ℕ → ℕ) (c : ℚ) (n : ℕ) : 1 ≤ shrinkStep S c n :=
  le_max_left _ _

lemma shrinkStep_lt (S : ℕ → ℕ) (c : ℚ) (n : ℕ)
    (hn : 1 < n) (hsz : (S n : ℚ) / (1024 * 1024) > c) :
    shrinkStep S c n < n := by
  have hn0 : (0 : ℚ) < (n : ℚ) := by exact_mod_cast Nat.lt_of_lt_of_le Nat.zero_lt_one hn.le
  have hszn : (0 : ℚ) ≤ (S n : ℚ) / (1024 * 1024) := by positivity
  unfold shrinkStep
  rcases lt_trichotomy c 0 with hc | hc | hc
  · -- negative ceiling: the quotient is non-positive, so the step is 1
    have hdenom : (S n : ℚ) / (1024 * 1024) / c ≤ 0 :=
      div_nonpos_iff.mpr (Or.inl ⟨hszn, hc.le⟩)
    have hx : (n : ℚ) / ((S n : ℚ) / (1024 * 1024) / c) ≤ 0 :=
      div_nonpos_iff.mpr (Or.inl ⟨hn0.le, hdenom⟩)
    have hfl : ⌊(n : ℚ) / ((S n : ℚ) / (1024 * 1024) / c)⌋ ≤ 0 :=
      Int.floor_nonpos hx
    rw [Int.toNat_of_nonpos hfl]
    omega
  · -- zero ceiling: division by zero is zero in ℚ, so the step is 1
    subst hc
    rw [div_zero, div_zero, Int.floor_zero]
    simpa using hn
  · -- positive ceiling: the overshoot factor exceeds 1
    have hov : 1 < (S n : ℚ) / (1024 * 1024) / c := (one_lt_div hc).mpr hsz
    have hx : (n : ℚ) / ((S n : ℚ) / (1024 * 1024) / c) < (n : ℚ) :=
      div_lt_self hn0 hov
    have hfl : ⌊(n : ℚ) / ((S n : ℚ) / (1024 * 1024) / c)⌋ < (n : ℤ) := by
      rw [Int.floor_lt]
      exact_mod_cast hx
    have hto : Int.toNat ⌊(n : ℚ) / ((S n : ℚ) / (1024 * 1024) / c)⌋ < n := by
      omega
    omega

lemma shrinkGo_le (S : ℕ → ℕ) (c : ℚ) :
    ∀ fuel n, shrinkGo S c fuel n ≤ n := by
  intro fuel
  induction fuel with
  | zero => intro n; simp [shrinkGo]
  | succ fuel ih =>
    intro n
    rw [shrinkGo]
    split
    · rename_i h
      exact le_trans (le_trans (ih _) (shrinkStep_lt S c n h.2 h.1).le) le_rfl
    · exact le_rfl

lemma shrinkGo_pos (S : ℕ → ℕ) (c : ℚ) :
    ∀ fuel n, 1 ≤ n → 1 ≤ shrinkGo S c fuel n := by
  intro fuel
  induction fuel with
  | zero => intro n hn; simpa [shrinkGo] using hn
  | succ fuel ih =>
    intro n hn
    rw [shrinkGo]
    split
    · exact ih _ (shrinkStep_pos S c n)
    · exact hn

lemma shrinkGo_post (S : ℕ → ℕ) (c : ℚ) :
    ∀ fuel n, 1 ≤ n → n ≤ fuel →
      (S (shrinkGo S c fuel n) : ℚ) / (1024 * 1024) ≤ c ∨
        shrinkGo S c fuel n = 1 := by
  intro fuel
  induction fuel with
  | zero => intro n h1 h2; omega
  | succ fuel ih =>
    intro n h1 h2
    rw [shrinkGo]
    split
    · rename_i h
      exact ih _ (shrinkStep_pos S c n)
        (by have := shrinkStep_lt S c n h.2 h.1; omega)
    · rename_i h
      rw [not_and_or, not_lt, not_lt] at h
      rcases h with h | h
      · exact Or.inl h
      · exact Or.inr (by omega)

lemma shrink_rows_le (S : ℕ → ℕ) (c : ℚ) (n : ℕ) : shrink_rows S c n ≤ n :=
  shrinkGo_le S c n n

lemma shrink_rows_pos (S : ℕ → ℕ) (c : ℚ) (n : ℕ) (h : 1 ≤ n) :
    1 ≤ shrink_rows S c n :=
  shrinkGo_pos S c n n h

lemma shrink_rows_post (S : ℕ → ℕ) (c : ℚ) (n : ℕ) (h : 1 ≤ n) :
    (S (shrink_rows S c n) : ℚ) / (1024 * 1024) ≤ c ∨ shrink_rows S c n = 1 :=
  shrinkGo_post S c n n h le_rfl

lemma splitN_le {α : Type} (sizeB : List α → ℕ) (maxRows : ℕ) (c : ℚ)
    (df : List α) (start : ℕ) :
    splitN sizeB maxRows c df start ≤ df.length - start := by
  refine le_trans (shrink_rows_le _ _ _) ?_
  omega

lemma splitN_pos {α : Type} (sizeB : List α → ℕ) (maxRows : ℕ) (c : ℚ)
    (df : List α) (start : ℕ) (hmr : 1 ≤ maxRows) (hs : start < df.length) :
    1 ≤ splitN sizeB maxRows c df start := by
  apply shrink_rows_pos
  omega

lemma splitN_post {α : Type} (sizeB : List α → ℕ) (maxRows : ℕ) (c : ℚ)
    (df : List α) (start : ℕ) (hmr : 1 ≤ maxRows) (hs : start < df.length) :
    (sizeB ((df.drop start).take (splitN sizeB maxRows c df start)) : ℚ) /
        (1024 * 1024) ≤ c ∨
      splitN sizeB maxRows c df start = 1 := by
  unfold splitN
  exact shrink_rows_post (fun k => sizeB ((df.drop start).take k)) c
    (min (start + maxRows) df.length - start) (by omega)

lemma splitGo_join {α : Type} (sizeB : List α → ℕ) (maxRows : ℕ) (c : ℚ)
    (df : List α) (hmr : 1 ≤ maxRows) :
    ∀ fuel start, df.length ≤ start + fuel →
      (splitGo sizeB maxRows c df fuel start).flatten = df.drop start := by
  intro fuel
  induction fuel with
  | zero =>
    intro start h
    rw [splitGo, List.flatten_nil]
    exact (List.drop_eq_nil_of_le (by omega)).symm
  | succ fuel ih =>
    intro start h
    rw [splitGo]
    split
    · rename_i hs
      have h1 := splitN_pos sizeB maxRows c df start hmr hs
      rw [List.flatten_cons, ih (start + splitN sizeB maxRows c df start) (by omega),
        ← List.drop_drop, List.take_append_drop]
    · rename_i hs
      rw [List.flatten_nil]
      exact (List.drop_eq_nil_of_le (by omega)).symm

lemma splitGo_mem {α : Type} (sizeB : List α → ℕ) (maxRows : ℕ) (c : ℚ)
    (df : List α) :
    ∀ fuel start chunk, chunk ∈ splitGo sizeB maxRows c df fuel start →
      ∃ s, s < df.length ∧
        chunk = (df.drop s).take (splitN sizeB maxRows c df s) := by
  intro fuel
  induction fuel with
  | zero => intro start chunk h; simp [splitGo] at h
  | succ fuel ih =>
    intro start chunk h
    rw [splitGo] at h
    split at h
    · rename_i hs
      rcases List.mem_cons.mp h with h | h
      · exact ⟨start, hs, h⟩
      · exact ih _ chunk h
    · simp at h

lemma splitGo_length {α : Type} (sizeB : List α → ℕ) (maxRows : ℕ) (c : ℚ)
    (df : List α) :
    ∀ fuel start, (splitGo sizeB maxRows c df fuel start).length ≤ fuel := by
  intro fuel
  induction fuel with
  | zero => intro start; simp [splitGo]
  | succ fuel ih =>
    intro start
    rw [splitGo]
    split
    · simpa using Nat.succ_le_succ (ih _)
    · simp

/-- C1: for every table and every positive row limit, the chunks produced
by `split_csv` are contiguous order-preserving slices that partition the
table exactly: their concatenation, in order, is the original table
(hence no gaps, no overlaps, no reordering, and equality as a multiset of
rows), and the chunk row counts sum to the table row count. -/
theorem split_roundtrip {α : Type} (sizeB : List α → ℕ) (maxRows : ℕ)
    (maxMB : ℚ) (df : List α) (hmr : 1 ≤ maxRows) :
    (split_csv sizeB maxRows maxMB df).flatten = df ∧
      ((split_csv sizeB maxRows maxMB df).map List.length).sum = df.length := by
  have hj : (split_csv sizeB maxRows maxMB df).flatten = df := by
    unfold split_csv
    rw [splitGo_join sizeB maxRows _ df hmr df.length 0 (by omega)]
    exact List.drop_zero df
  refine ⟨hj, ?_⟩
  rw [← List.length_flatten, hj]

theorem split_roundtrip_witness :
    (split_csv (fun l => l.length) 2 1 ([0, 1, 2] : List ℕ)).flatten = [0, 1, 2] ∧
      ((split_csv (fun l => l.length) 2 1 ([0, 1, 2] : List ℕ)).map
          List.length).sum = ([0, 1, 2] : List ℕ).length :=
  split_roundtrip (fun l => l.length) 2 1 [0, 1, 2] (by decide)

/-- C3: every chunk persisted by the splitter either has on-disk size at
most `maxMB * 0.99` megabytes (bytes divided by `1024 * 1024`), or
consists of a single row; the positive row limit matches the splitter's
contract (spec default 100000). -/
theorem chunk_size_bound {α : Type} (sizeB : List α → ℕ) (maxRows : ℕ)
    (maxMB : ℚ) (df : List α) (chunk : List α) (hmr : 1 ≤ maxRows)
    (hc : chunk ∈ split_csv sizeB maxRows maxMB df) :
    (sizeB chunk : ℚ) / (1024 * 1024) ≤ maxMB * (99 / 100) ∨
      chunk.length = 1 := by
  unfold split_csv at hc
  obtain ⟨s, hs, rfl⟩ := splitGo_mem sizeB maxRows _ df df.length 0 _ hc
  have hpost := splitN_post sizeB maxRows (maxMB * (99 / 100)) df s hmr hs
  rcases hpost with h | h
  · exact Or.inl h
  · right
    rw [h, List.length_take, List.length_drop]
    exact min_eq_left (by omega)

theorem chunk_size_bound_witness :
    ((0 : ℕ) : ℚ) / (1024 * 1024) ≤ 1 * (99 / 100) ∨
      ([0, 1] : List ℕ).length = 1 :=
  chunk_size_bound (fun _ => 0) 2 1 [0, 1] [0, 1] (by decide)
    (by norm_num [split_csv, splitGo, splitN, shrink_rows, shrinkGo])

/-- C8: termination of the shrink loop and of the outer split loop.
While the persisted size exceeds the ceiling and the chunk has more than
one row, the shrink step (row count divided by the overshoot ratio,
floored, with a minimum of one) strictly decreases the row count; the
shrink loop therefore ends with a size at most the ceiling or a one-row
chunk, its final row count is at least one (so the outer cursor strictly
advances past each recorded chunk), and the outer loop records at most
one chunk per table row. -/
theorem shrink_termination (S : ℕ → ℕ) (c : ℚ) (n₁ n₂ : ℕ) (α : Type)
    (sizeB : List α → ℕ) (maxRows : ℕ) (maxMB : ℚ) (df : List α)
    (h1 : 1 < n₁) (h2 : (S n₁ : ℚ) / (1024 * 1024) > c) (h3 : 1 ≤ n₂) :
    shrinkStep S c n₁ < n₁ ∧
      ((S (shrink_rows S c n₂) : ℚ) / (1024 * 1024) ≤ c ∨
        shrink_rows S c n₂ = 1) ∧
      1 ≤ shrink_rows S c n₂ ∧
      (split_csv sizeB maxRows maxMB df).length ≤ df.length :=
  ⟨shrinkStep_lt S c n₁ h1 h2, shrink_rows_post S c n₂ h3,
    shrink_rows_pos S c n₂ h3,
    splitGo_length sizeB maxRows (maxMB * (99 / 100)) df df.length 0⟩

theorem shrink_termination_witness :
    shrinkStep (fun k => k * 2097152) 1 4 < 4 ∧
      (((shrink_rows (fun k => k * 2097152) 1 3 * 2097152 : ℕ) : ℚ) /
            (1024 * 1024) ≤ 1 ∨
        shrink_rows (fun k => k * 2097152) 1 3 = 1) ∧
      1 ≤ shrink_rows (fun k => k * 2097152) 1 3 ∧
      (split_csv (fun (l : List ℕ) => l.length) 2 1 ([5, 6] : List ℕ)).length ≤
        ([5, 6] : List ℕ).length :=
  shrink_termination (fun k => k * 2097152) 1 4 3 ℕ (fun l => l.length) 2 1
    [5, 6] (by decide) (by norm_num) (by decide)

/-- Rows as handled by the validator: each cell is either missing
(pandas `NaN` after `read_csv` with `dtype=str`) or a string. -/
abbrev Row := List (Option (List Char))

/-- Per-cell string used by `hash_row` (source line 130):
`str(v) if pd.notna(v) else "NULL"`. -/
def cellToStr : Option (List Char) → List Char
  | none => 'N' :: 'U' :: 'L' :: 'L' :: []
  | some s => s

/-- Model of `"|".join` over the per-cell strings (source line 130). -/
def joinBar : List (List Char) → List Char
  | [] => []
  | [x] => x
  | x :: y :: r => x ++ '|' :: joinBar (y :: r)

/-- Model of `hash_row` (source lines 129-131): the fingerprint of a row
is its `"|"`-joined cell strings.  The final
`hashlib.md5(...).hexdigest()` is modelled as the identity on the joined
string: md5 is a fixed deterministic function of it, and the spec
explicitly treats digest collisions as out of scope, so fingerprint
equality is modelled as equality of the digested strings. -/
def hash_row (r : Row) : List Char := joinBar (r.map cellToStr)

/-- Extensional equality of the two Python hash sets compared at source
line 160: two lists denote the same set iff every element of each occurs
in the other. -/
def equalAsSets (a b : List (List Char)) : Bool :=
  a.all (fun x => decide (x ∈ b)) && b.all (fun x => decide (x ∈ a))

/-- Model of the two boolean checks of `validate_data` (source lines
133-165): `orig` is the cleaned table re-read from disk, `chunks` the
chunk files read in directory order.  The first component is the
row-count check `orig_rows == combined_rows` (line 159), the second the
fingerprint-set check `orig_hashes == combined_hashes` (line 160), the
combined totals being accumulated over all chunks. -/
def validate_data (orig : List Row) (chunks : List (List Row)) : Bool × Bool :=
  (decide (orig.length = (chunks.map List.length).sum),
   equalAsSets (orig.map hash_row) (chunks.flatten.map hash_row))

lemma equalAsSets_self (l : List (List Char)) : equalAsSets l l = true := by
  simp [equalAsSets]

/-- C2 (amended): for a chunk list that is an exact split of the cleaned
table with one row deleted from one chunk, the row-count check always
fails, and the fingerprint-set check fails provided the deleted row's
fingerprint does not also occur among the remaining rows; an exact,
unmodified split passes both checks.  The proviso is forced by the
counterexample: both fingerprint containers are Python sets, so deleting
a duplicated row leaves the fingerprint set unchanged. -/
theorem validator_soundness (pre post : List (List Row)) (cpre csuf : List Row)
    (row : Row) (chunksE : List (List Row))
    (hnodup : hash_row row ∉
      (pre.flatten ++ cpre ++ csuf ++ post.flatten).map hash_row) :
    (validate_data (pre ++ (cpre ++ row :: csuf) :: post).flatten
        (pre ++ (cpre ++ csuf) :: post)).1 = false ∧
      (validate_data (pre ++ (cpre ++ row :: csuf) :: post).flatten
        (pre ++ (cpre ++ csuf) :: post)).2 = false ∧
      validate_data chunksE.flatten chunksE = (true, true) := by
  refine ⟨?_, ?_, ?_⟩
  · have hlen : ((pre ++ (cpre ++ row :: csuf) :: post).flatten).length ≠
        ((pre ++ (cpre ++ csuf) :: post).map List.length).sum := by
      simp only [List.length_flatten, List.map_append, List.map_cons,
        List.sum_append, List.sum_cons, List.length_append, List.length_cons]
      omega
    exact decide_eq_false hlen
  · have hmemA : hash_row row ∈
        (pre ++ (cpre ++ row :: csuf) :: post).flatten.map hash_row :=
      List.mem_map_of_mem _ (by simp)
    have hB : ((pre ++ (cpre ++ csuf) :: post).flatten.map hash_row) =
        (pre.flatten ++ cpre ++ csuf ++ post.flatten).map hash_row := by
      simp [List.flatten_append, List.flatten_cons, List.append_assoc]
    show equalAsSets _ _ = false
    cases h : equalAsSets ((pre ++ (cpre ++ row :: csuf) :: post).flatten.map
        hash_row) ((pre ++ (cpre ++ csuf) :: post).flatten.map hash_row) with
    | false => rfl
    | true =>
      exfalso
      have h1 := (Bool.and_eq_true _ _).mp h
      have h2 := List.all_eq_true.mp h1.1 _ hmemA
      rw [hB] at h2
      exact hnodup (of_decide_eq_true h2)
  · refine Prod.ext ?_ ?_
    · exact decide_eq_true (List.length_flatten _)
    · exact equalAsSets_self _

/-- C2 counterexample: the table has two identical rows and the split
`[[r], [r]]` is exact; deleting one copy (leaving `[[r], []]`) makes the
row-count check fail but the fingerprint-set check still PASS, because
both fingerprint containers are sets and the surviving duplicate supplies
the digest.  The claim as stated requires both checks to fail. -/
theorem validator_soundness_counterexample :
    validate_data [[some ['x']], [some ['x']]] [[[some ['x']]], []] =
      (false, true) := by decide

theorem validator_soundness_witness :
    (validate_data ([] ++ ([] ++ [some ['b']] :: []) :: []).flatten
        ([] ++ (([] : List Row) ++ []) :: [])).1 = false ∧
      (validate_data ([] ++ ([] ++ [some ['b']] :: []) :: []).flatten
        ([] ++ (([] : List Row) ++ []) :: [])).2 = false ∧
      validate_data [[[some ['c']]]].flatten [[[some ['c']]]] = (true, true) :=
  validator_soundness [] [] [] [] [some ['b']] [[[some ['c']]]] (by decide)

lemma joinBar_cons (x : List Char) (l : List (List Char)) (h : l ≠ []) :
    joinBar (x :: l) = x ++ '|' :: joinBar l := by
  cases l with
  | nil => exact absurd rfl h
  | cons y r => rfl

/-- C9 (amended): the row fingerprint is a deterministic function of the
cell values, and two rows agreeing in every position except one missing
cell against one present cell have different fingerprints PROVIDED the
present value's string form is not itself the four-character sentinel
string `NULL`.  The proviso is forced by the counterexample: the sentinel
collides with a present cell holding exactly the string `NULL`. -/
theorem fingerprint_sentinel_amended (pre suf : List (Option (List Char)))
    (x : List Char) (hx : x ≠ 'N' :: 'U' :: 'L' :: 'L' :: []) :
    hash_row (pre ++ none :: suf) ≠ hash_row (pre ++ some x :: suf) := by
  induction pre with
  | nil =>
    cases suf with
    | nil =>
      simp only [hash_row, List.nil_append, List.map_cons, List.map_nil,
        joinBar, cellToStr]
      exact fun h => hx h.symm
    | cons c cs =>
      intro h
      rw [hash_row, hash_row, List.nil_append, List.nil_append] at h
      conv at h => lhs; rw [List.map_cons, joinBar_cons _ _ (by simp)]
      conv at h => rhs; rw [List.map_cons, joinBar_cons _ _ (by simp)]
      simp only [cellToStr] at h
      exact hx (List.append_cancel_right h).symm
  | cons p ps ih =>
    intro h
    rw [hash_row, hash_row, List.cons_append, List.cons_append] at h
    conv at h => lhs; rw [List.map_cons, joinBar_cons _ _ (by simp)]
    conv at h => rhs; rw [List.map_cons, joinBar_cons _ _ (by simp)]
    have h2 := List.append_cancel_left h
    injection h2 with h3 h4
    exact ih h4

/-- C9 counterexample: a missing cell and a present cell holding the
string `NULL` produce identical fingerprints, so the sentinel is not
distinguished from the string form of every present value. -/
theorem fingerprint_sentinel_counterexample :
    hash_row [none] = hash_row [some ('N' :: 'U' :: 'L' :: 'L' :: [])] := rfl

theorem fingerprint_sentinel_witness :
    hash_row ([] ++ none :: []) ≠ hash_row ([] ++ some ['a'] :: []) :=
  fingerprint_sentinel_amended [] [] ['a'] (by decide)

/-- Cell values of the in-memory cleaned table: missing (`NaN`) or a
string. -/
inductive Cell where
  | missing : Cell
  | str : List Char → Cell
deriving DecidableEq

/-- Python `str()` of a cell as applied by `df[col].astype(str)` (source
line 197): `str(nan)` is the three-character string `nan`; a string is
unchanged. -/
def cellPyStr : Cell → List Char
  | Cell.missing => 'n' :: 'a' :: 'n' :: []
  | Cell.str s => s

/-- Model of `.str.replace('"', '""', regex=False)` (source line 197). -/
def escapeQuotes (l : List Char) : List Char :=
  l.flatMap (fun c => if c = '"' then ['"', '"'] else [c])

/-- Model of one rich-text rewrite of a cell (source lines 197-198):
stringify, double the inner quotes, then wrap in double quotes. -/
def quoteWrap (c : Cell) : Cell :=
  Cell.str ('"' :: (escapeQuotes (cellPyStr c) ++ ['"']))

/-- Model of one `for col in rich_text_columns` iteration of `main`
(source lines 195-198): the named column's cells are rewritten, all other
columns are untouched; a name absent from the table is a no-op, matching
`if col in df.columns`. -/
def applyRichCol (name : List Char) (tbl : List (List Char × List Cell)) :
    List (List Char × List Cell) :=
  tbl.map (fun col => if col.1 = name then (col.1, col.2.map quoteWrap) else col)

/-- Model of the whole rich-text loop of `main` (source lines 195-198). -/
def richTextStage (richCols : List (List Char))
    (tbl : List (List Char × List Cell)) : List (List Char × List Cell) :=
  richCols.foldl (fun t c => applyRichCol c t) tbl

lemma richTextStage_eq (richCols : List (List Char)) :
    ∀ tbl, richCols.Nodup →
      richTextStage richCols tbl = tbl.map (fun col =>
        if col.1 ∈ richCols then (col.1, col.2.map quoteWrap) else col) := by
  induction richCols with
  | nil => intro tbl _; simp [richTextStage]
  | cons c cs ih =>
    intro tbl hnd
    rw [List.nodup_cons] at hnd
    have h1 : richTextStage (c :: cs) tbl = richTextStage cs (applyRichCol c tbl) :=
      rfl
    rw [h1, ih _ hnd.2, applyRichCol, List.map_map]
    refine List.map_congr_left ?_
    intro col _
    by_cases hc : col.1 = c
    · simp [Function.comp, hc, hnd.1]
    · simp [Function.comp, hc]

/-- C10: for every column configured as rich text (with the configured
names pairwise distinct), the cleaning stage rewrites every cell by
`quoteWrap`, and in particular each missing cell becomes the present
five-character string `"nan"` — the literal three characters `nan`
wrapped in double quotes; columns not configured as rich text are left
untouched, so their missing cells remain missing. -/
theorem rich_text_missing (richCols : List (List Char))
    (tbl : List (List Char × List Cell)) (hnd : richCols.Nodup) :
    richTextStage richCols tbl = tbl.map (fun col =>
        if col.1 ∈ richCols then (col.1, col.2.map quoteWrap) else col) ∧
      quoteWrap Cell.missing = Cell.str ('"' :: 'n' :: 'a' :: 'n' :: '"' :: []) :=
  ⟨richTextStage_eq richCols tbl hnd, rfl⟩

theorem rich_text_missing_witness :
    richTextStage [['a']] [(['a'], [Cell.missing]), (['b'], [Cell.missing])] =
      ([(['a'], [Cell.missing]), (['b'], [Cell.missing])]).map (fun col =>
        if col.1 ∈ [['a']] then (col.1, col.2.map quoteWrap) else col) ∧
      quoteWrap Cell.missing = Cell.str ('"' :: 'n' :: 'a' :: 'n' :: '"' :: []) :=
  rich_text_missing [['a']] [(['a'], [Cell.missing]), (['b'], [Cell.missing])]
    (by decide)

/-- Python whitespace, as stripped by `str.strip()` and matched by the
regex class `\s` (ASCII range; the cell text under consideration is
ASCII). -/
def pyIsSpace (c : Char) : Bool :=
  c = ' ' || c = '\t' || c = '\n' || c = '\r' || c = '\x0b' || c = '\x0c'

/-- ASCII decimal digit, the regex class `\d` on ASCII text. -/
def isDig (c : Char) : Bool := '0' ≤ c && c ≤ '9'

/-- Word character, the regex class `\w` on ASCII text. -/
def isWordChar (c : Char) : Bool :=
  isDig c || ('a' ≤ c && c ≤ 'z') || ('A' ≤ c && c ≤ 'Z') || c = '_'

/-- Python `str.strip()`. -/
def pyStrip (l : List Char) : List Char :=
  ((l.dropWhile pyIsSpace).reverse.dropWhile pyIsSpace).reverse

/-- Regex building block: one character satisfying `p`.  Every matcher
maps an input suffix to the list of suffixes left over by each possible
way of consuming a prefix; a pattern matches a string when some path
through its blocks consumes the whole string. -/
def pChr (p : Char → Bool) (l : List Char) : List (List Char) :=
  match l with
  | c :: r => if p c then [r] else []
  | [] => []

/-- Regex `X*` for a character class `p`. -/
def pStar (p : Char → Bool) (l : List Char) : List (List Char) :=
  match l with
  | c :: r => if p c then (c :: r) :: pStar p r else [c :: r]
  | [] => [[]]

/-- Regex `X{n}` for a character class `p`. -/
def pRepExact (p : Char → Bool) : ℕ → List Char → List (List Char)
  | 0, l => [l]
  | k + 1, c :: r => if p c then pRepExact p k r else []
  | _ + 1, [] => []

/-- Up to `n` further characters of class `p`, including zero. -/
def pRepUpTo (p : Char → Bool) : ℕ → List Char → List (List Char)
  | 0, l => [l]
  | k + 1, l =>
    l :: (match l with
      | c :: r => if p c then pRepUpTo p k r else []
      | [] => [])

/-- Regex `\d{lo,lo+extra}`. -/
def pDigRange (lo extra : ℕ) (l : List Char) : List (List Char) :=
  (pRepExact isDig lo l).flatMap (pRepUpTo isDig extra)

/-- Regex `.*`: `.` matches any character except a newline. -/
def pDotStar (l : List Char) : List (List Char) :=
  match l with
  | c :: r => (c :: r) :: (if c = '\n' then [] else pDotStar r)
  | [] => [[]]

/-- Regex `X?` for a sub-pattern `f`. -/
def pOpt (f : List Char → List (List Char)) (l : List Char) : List (List Char) :=
  l :: f l

/-- Regex `(?:Z|[+-]\d{2}:\d{2})`, the zone suffix of `ISO_TZ_REGEX`. -/
def pZone (l : List Char) : List (List Char) :=
  pChr (fun c => c = 'Z') l ++
    ((pChr (fun c => c = '+' || c = '-') l).flatMap (fun r =>
      (pRepExact isDig 2 r).flatMap (fun r2 =>
        (pChr (fun c => c = ':') r2).flatMap (pRepExact isDig 2))))

/-- Model of `ISO_TZ_REGEX` (source line 23):
`^\s*\d{4}-\d{2}-\d{2}T.*(?:Z|[+-]\d{2}:\d{2})?\s*$`.  The pattern
matches iff some path consumes the whole string; the trailing `\s*$` is
equivalent to requiring the leftover after the optional zone to be all
whitespace. -/
def iso_tz_match (s : List Char) : Bool :=
  (((((((((pStar pyIsSpace s).flatMap (pRepExact isDig 4)).flatMap
    (pChr (fun c => c = '-'))).flatMap (pRepExact isDig 2)).flatMap
    (pChr (fun c => c = '-'))).flatMap (pRepExact isDig 2)).flatMap
    (pChr (fun c => c = 'T'))).flatMap pDotStar).flatMap
    (pOpt pZone)).flatMap (pStar pyIsSpace) |>.any List.isEmpty

/-- Regex `\s+\d{1,2}:\d{1,2}(?::\d{1,2})?`, the optional trailing time
group shared by the three `DATE_PATTERNS`. -/
def pTimeTail (l : List Char) : List (List Char) :=
  (((((pChr pyIsSpace l).flatMap (pStar pyIsSpace)).flatMap
    (pDigRange 1 1)).flatMap (pChr (fun c => c = ':'))).flatMap
    (pDigRange 1 1)).flatMap
    (pOpt (fun r => (pChr (fun c => c = ':') r).flatMap (pDigRange 1 1)))

/-- Regex class matching a dash or a slash. -/
def pDashSlash (l : List Char) : List (List Char) :=
  pChr (fun c => c = '-' || c = '/') l

/-- Model of the first entry of `DATE_PATTERNS` (source line 26): day and
month as one or two digits, each separator a dash or a slash, year as two
to four digits, optional trailing time, surrounded by `\s*` anchors. -/
def date_pat1 (s : List Char) : Bool :=
  (((((((pStar pyIsSpace s).flatMap (pDigRange 1 1)).flatMap
    pDashSlash).flatMap (pDigRange 1 1)).flatMap pDashSlash).flatMap
    (pDigRange 2 2)).flatMap (pOpt pTimeTail)).flatMap (pStar pyIsSpace)
    |>.any List.isEmpty

/-- Model of the second entry of `DATE_PATTERNS` (source line 27): a
four-digit year, then month and day as one or two digits, each separator
a dash or a slash, optional trailing time, surrounded by `\s*` anchors. -/
def date_pat2 (s : List Char) : Bool :=
  (((((((pStar pyIsSpace s).flatMap (pRepExact isDig 4)).flatMap
    pDashSlash).flatMap (pDigRange 1 1)).flatMap pDashSlash).flatMap
    (pDigRange 1 1)).flatMap (pOpt pTimeTail)).flatMap (pStar pyIsSpace)
    |>.any List.isEmpty

/-- Regex `[-.]`. -/
def pDashDot (l : List Char) : List (List Char) :=
  pChr (fun c => c = '-' || c = '.') l

/-- Model of the third entry of `DATE_PATTERNS` (source line 28): a one
or two digit day, a three-character word (month name), and a two to four
digit year, separated by a dash or a dot, with optional trailing time and
`\s*` anchors; the `re.I` flag only affects the word class `\w`, which
already ignores case. -/
def date_pat3 (s : List Char) : Bool :=
  (((((((pStar pyIsSpace s).flatMap (pDigRange 1 1)).flatMap
    pDashDot).flatMap (pRepExact isWordChar 3)).flatMap pDashDot).flatMap
    (pDigRange 2 2)).flatMap (pOpt pTimeTail)).flatMap (pStar pyIsSpace)
    |>.any List.isEmpty

/-- Model of `_looks_like_date` (source lines 53-56). -/
def looks_like_date (s : List Char) : Bool :=
  iso_tz_match s || date_pat1 s || date_pat2 s || date_pat3 s

/-- Decimal digit character. -/
def decChar (n : ℕ) : Char :=
  match n with
  | 0 => '0' | 1 => '1' | 2 => '2' | 3 => '3' | 4 => '4'
  | 5 => '5' | 6 => '6' | 7 => '7' | 8 => '8' | _ => '9'

/-- Numeric value of a digit character. -/
def digitVal (c : Char) : ℕ := c.toNat - 48

/-- Value of a decimal digit string. -/
def digitsToNat (l : List Char) : ℕ := l.foldl (fun a c => a * 10 + digitVal c) 0

/-- Python `int(val_str)` with the except-to-zero fallback of `_clamp_2d`
(source lines 34-37): on a non-empty all-digit string `int` succeeds;
anything else would raise and fall back to 0. -/
def pyIntOrZero (l : List Char) : ℕ :=
  if !l.isEmpty && l.all isDig then digitsToNat l else 0

/-- Decimal digits of `n`, most significant first, fuelled by `n + 1`. -/
def decDigitsCore : ℕ → ℕ → List Char → List Char
  | 0, _, acc => acc
  | fuel + 1, n, acc =>
    if n < 10 then decChar n :: acc
    else decDigitsCore fuel (n / 10) (decChar (n % 10) :: acc)

/-- Decimal rendering of a natural number. -/
def decDigits (n : ℕ) : List Char := decDigitsCore (n + 1) n []

/-- Zero-padding to width `w`, as in `f"{v:02d}"` and `strftime`. -/
def zeroPad (w : ℕ) (l : List Char) : List Char :=
  List.replicate (w - l.length) '0' ++ l

/-- Model of `_clamp_2d` (source lines 33-39): integer parse-or-zero,
clamp into `[0, maxv]` via `max(0, min(maxv, v))`, render as a two-digit
zero-padded decimal. -/
def clamp_2d (l : List Char) (maxv : ℕ) : List Char :=
  zeroPad 2 (decDigits (max 0 (min maxv (pyIntOrZero l))))

/-- Hour part `(\d{1,2}):` of `TIME_REGEX` at the current position, with
the Python engine's backtracking folded in: two digits followed by `:`
win; otherwise one digit directly followed by `:`; everything else fails
(after a two-digit prefix whose third character is not `:`, the one-digit
alternative would need its second character to be `:`, but that character
is a digit). -/
def matchHour : List Char → Option (List Char × List Char)
  | a :: b :: c :: r =>
    if isDig a then
      if b = ':' then some ([a], c :: r)
      else if isDig b && c = ':' then some ([a, b], r)
      else none
    else none
  | [a, b] => if isDig a && b = ':' then some ([a], []) else none
  | _ => none

/-- Greedy `\d{1,2}`: two digits if available, else one, else fail. -/
def readDig12 : List Char → Option (List Char × List Char)
  | a :: b :: r =>
    if isDig a then
      (if isDig b then some ([a, b], r) else some ([a], b :: r))
    else none
  | [a] => if isDig a then some ([a], []) else none
  | [] => none

/-- Optional seconds group `(?::(\d{1,2}))?`: a colon followed by one or
two digits, otherwise the group matches empty and consumes nothing. -/
def matchSecPart (l : List Char) : Option (List Char) × List Char :=
  match l with
  | ':' :: r =>
    (match readDig12 r with
      | some (s, r2) => (some s, r2)
      | none => (none, ':' :: r))
  | _ => (none, l)

/-- One attempted match of `TIME_REGEX` (source line 31)
`(\d{1,2}):(\d{1,2})(?::(\d{1,2}))?` at the current position, returning
the captured hour, minute, optional seconds, and the remainder. -/
def matchTimeAt (l : List Char) :
    Option (List Char × List Char × Option (List Char) × List Char) :=
  match matchHour l with
  | none => none
  | some (h, r1) =>
    match readDig12 r1 with
    | none => none
    | some (m, r2) =>
      match matchSecPart r2 with
      | (os, r3) => some (h, m, os, r3)

/-- Replacement `_repl` (source lines 42-50): hour clamped to 23,
minute and second to 59, seconds present exactly when captured. -/
def timeRepl (h m : List Char) (os : Option (List Char)) : List Char :=
  clamp_2d h 23 ++ ':' :: clamp_2d m 59 ++
    (match os with
      | some s => ':' :: clamp_2d s 59
      | none => [])

/-- Model of `TIME_REGEX.sub(_repl, text, count=1)`: scan left to right
and replace the leftmost match only. -/
def subTimeOnce : List Char → List Char
  | [] => []
  | c :: r =>
    match matchTimeAt (c :: r) with
    | some (h, m, os, rest) => timeRepl h m os ++ rest
    | none => c :: subTimeOnce r

/-- Model of `_fix_invalid_time` (source lines 41-51). -/
def fix_invalid_time (l : List Char) : List Char := subTimeOnce l

/-- Parsed datetime value. -/
structure PDT where
  y : ℕ
  mo : ℕ
  d : ℕ
  hh : ℕ
  mi : ℕ
  ss : ℕ
deriving DecidableEq

/-- Gregorian leap year. -/
def isLeap (y : ℕ) : Bool := (y % 4 == 0 && y % 100 != 0) || y % 400 == 0

/-- Days in a month. -/
def daysInMonth (y m : ℕ) : ℕ :=
  if m = 2 then (if isLeap y then 29 else 28)
  else if m = 4 || m = 6 || m = 9 || m = 11 then 30
  else 31

/-- Calendar validity enforced by a successful
`pd.to_datetime(..., format=..., errors='raise')`; the bounded pandas
`Timestamp` year range is not modelled. -/
def validDate (y m d : ℕ) : Bool :=
  1 ≤ m && m ≤ 12 && 1 ≤ d && d ≤ daysInMonth y m

/-- Time-of-day validity enforced by the strict parse. -/
def validHMS (h m s : ℕ) : Bool := h ≤ 23 && m ≤ 59 && s ≤ 59

/-- Format directives `%d`, `%m`, `%H`, `%M`, `%S`: one or two digits. -/
def readNat12 (l : List Char) : Option (ℕ × List Char) :=
  match readDig12 l with
  | some (ds, r) => some (digitsToNat ds, r)
  | none => none

/-- Format directive `%Y`: exactly four digits. -/
def readNat4 : List Char → Option (ℕ × List Char)
  | a :: b :: c :: d :: r =>
    if isDig a && isDig b && isDig c && isDig d then
      some (digitsToNat [a, b, c, d], r)
    else none
  | _ => none

/-- Literal character of a format string. -/
def parseLit (ch : Char) : List Char → Option (List Char)
  | c :: r => if c = ch then some r else none
  | [] => none

/-- Date part `%d/%m/%Y`. -/
def parseDMYdate (l : List Char) : Option (PDT × List Char) :=
  (readNat12 l).bind fun dr =>
  (parseLit '/' dr.2).bind fun r2 =>
  (readNat12 r2).bind fun mr =>
  (parseLit '/' mr.2).bind fun r4 =>
  (readNat4 r4).bind fun yr =>
  if validDate yr.1 mr.1 dr.1 then some (⟨yr.1, mr.1, dr.1, 0, 0, 0⟩, yr.2)
  else none

/-- Date part `%Y-%m-%d`. -/
def parseYMDdate (l : List Char) : Option (PDT × List Char) :=
  (readNat4 l).bind fun yr =>
  (parseLit '-' yr.2).bind fun r2 =>
  (readNat12 r2).bind fun mr =>
  (parseLit '-' mr.2).bind fun r4 =>
  (readNat12 r4).bind fun dr =>
  if validDate yr.1 mr.1 dr.1 then some (⟨yr.1, mr.1, dr.1, 0, 0, 0⟩, dr.2)
  else none

/-- Time part ` %H:%M:%S` appended to a parsed date. -/
def parseHMS (p : PDT) (l : List Char) : Option (PDT × List Char) :=
  (parseLit ' ' l).bind fun r1 =>
  (readNat12 r1).bind fun hr =>
  (parseLit ':' hr.2).bind fun r2 =>
  (readNat12 r2).bind fun mr =>
  (parseLit ':' mr.2).bind fun r3 =>
  (readNat12 r3).bind fun sr =>
  if validHMS hr.1 mr.1 sr.1 then
    some (⟨p.y, p.mo, p.d, hr.1, mr.1, sr.1⟩, sr.2)
  else none

/-- Time part ` %H:%M` appended to a parsed date. -/
def parseHM (p : PDT) (l : List Char) : Option (PDT × List Char) :=
  (parseLit ' ' l).bind fun r1 =>
  (readNat12 r1).bind fun hr =>
  (parseLit ':' hr.2).bind fun r2 =>
  (readNat12 r2).bind fun mr =>
  if validHMS hr.1 mr.1 0 then some (⟨p.y, p.mo, p.d, hr.1, mr.1, 0⟩, mr.2)
  else none

/-- Full-string parse against one format (pandas default `exact=True`). -/
def fullParse (f : List Char → Option (PDT × List Char)) (l : List Char) :
    Option PDT :=
  match f l with
  | some (p, []) => some p
  | _ => none

/-- Model of the strict template cascade of `normalize_cell` (source
lines 78-85): the ordered formats `%d/%m/%Y %H:%M:%S`, `%d/%m/%Y %H:%M`,
`%d/%m/%Y`, `%Y-%m-%d %H:%M:%S`, `%Y-%m-%d %H:%M`, `%Y-%m-%d`; the first
full-string parse wins, paired with the format's `has_time` flag (source
line 82). -/
def tryFormats (l : List Char) : Option (PDT × Bool) :=
  match fullParse (fun s => (parseDMYdate s).bind fun pr => parseHMS pr.1 pr.2) l with
  | some p => some (p, true)
  | none =>
  match fullParse (fun s => (parseDMYdate s).bind fun pr => parseHM pr.1 pr.2) l with
  | some p => some (p, true)
  | none =>
  match fullParse parseDMYdate l with
  | some p => some (p, false)
  | none =>
  match fullParse (fun s => (parseYMDdate s).bind fun pr => parseHMS pr.1 pr.2) l with
  | some p => some (p, true)
  | none =>
  match fullParse (fun s => (parseYMDdate s).bind fun pr => parseHM pr.1 pr.2) l with
  | some p => some (p, true)
  | none =>
  match fullParse parseYMDdate l with
  | some p => some (p, false)
  | none => none

/-- Output rendering of `normalize_cell`:
`strftime("%Y-%m-%d %H:%M:%S")` with a time component, else
`strftime("%Y-%m-%d")` (source lines 83 and 91). -/
def renderDT (p : PDT) (hasTime : Bool) : List Char :=
  zeroPad 4 (decDigits p.y) ++ '-' :: zeroPad 2 (decDigits p.mo) ++
    '-' :: zeroPad 2 (decDigits p.d) ++
    (if hasTime then
      ' ' :: zeroPad 2 (decDigits p.hh) ++ ':' :: zeroPad 2 (decDigits p.mi) ++
        ':' :: zeroPad 2 (decDigits p.ss)
    else [])

/-- Model of `normalize_cell` (source lines 58-91) on scalar cells.  The
lenient fallback `pd.to_datetime(s_fixed, errors="coerce")` (source line
87) has unspecified format-inference behaviour, so it is a parameter
`lenient` returning the parsed value, or `none` for `NaT`.  A cell is
either missing (`pd.isna` true, returned unchanged) or a string; the
function is total, so no input raises. -/
def normalize_cell (lenient : List Char → Option PDT) (val : Cell) : Cell :=
  match val with
  | Cell.missing => Cell.missing
  | Cell.str sv =>
    let s := pyStrip sv
    if s.isEmpty then Cell.str s
    else if !looks_like_date s then Cell.str sv
    else if iso_tz_match s then Cell.str s
    else
      match tryFormats (fix_invalid_time s) with
      | some (dt, hasTime) => Cell.str (renderDT dt hasTime)
      | none =>
        match lenient (fix_invalid_time s) with
        | none => Cell.str sv
        | some dt =>
          Cell.str (renderDT dt (decide (':' ∈ fix_invalid_time s) ||
            !(dt.hh == 0 && dt.mi == 0 && dt.ss == 0)))

lemma dropWhile_eq_nil_of_all (p : Char → Bool) (s : List Char)
    (h : s.all p = true) : s.dropWhile p = [] := by
  induction s with
  | nil => rfl
  | cons c r ih =>
    rw [List.all_cons] at h
    have h1 := (Bool.and_eq_true _ _).mp h
    rw [List.dropWhile_cons, if_pos h1.1]
    exact ih h1.2

lemma pyStrip_all_space (s : List Char) (h : s.all pyIsSpace = true) :
    pyStrip s = [] := by
  unfold pyStrip
  rw [dropWhile_eq_nil_of_all pyIsSpace s h]
  rfl

/-- C6 (amended): a missing value is returned unchanged and the empty
string is returned unchanged, but a whitespace-only string is returned
STRIPPED — the normalizer yields the empty string, which differs from the
original whenever the input was non-empty whitespace. -/
theorem blank_passthrough (lenient : List Char → Option PDT) (s : List Char)
    (h : s.all pyIsSpace = true) :
    normalize_cell lenient Cell.missing = Cell.missing ∧
      normalize_cell lenient (Cell.str s) = Cell.str [] := by
  refine ⟨rfl, ?_⟩
  simp [normalize_cell, pyStrip_all_space s h]

/-- C6 counterexample: on the single-space string, `normalize_cell`
returns the empty string (`s.strip()`), not the original value. -/
theorem blank_passthrough_counterexample :
    normalize_cell (fun _ => none) (Cell.str [' ']) ≠ Cell.str [' '] := by
  decide

theorem blank_passthrough_witness :
    normalize_cell (fun _ => none) Cell.missing = Cell.missing ∧
      normalize_cell (fun _ => none) (Cell.str [' ']) = Cell.str [] :=
  blank_passthrough (fun _ => none) [' '] (by decide)

/-- C7: the normalizer is a total function of the cell (never raises),
and on the full degradation path — a date-candidate, non-ISO string on
which every strict template fails for the time-repaired text and the
lenient best-effort fallback also fails — the original, unmodified value
is returned. -/
theorem normalize_graceful_fallback (lenient : List Char → Option PDT)
    (sv : List Char)
    (h0 : (pyStrip sv).isEmpty = false)
    (h1 : looks_like_date (pyStrip sv) = true)
    (h2 : iso_tz_match (pyStrip sv) = false)
    (h3 : tryFormats (fix_invalid_time (pyStrip sv)) = none)
    (h4 : lenient (fix_invalid_time (pyStrip sv)) = none) :
    normalize_cell lenient (Cell.str sv) = Cell.str sv := by
  simp [normalize_cell, h0, h1, h2, h3, h4]

theorem normalize_graceful_fallback_witness :
    normalize_cell (fun _ => none) (Cell.str ("99/99/9999".toList)) =
      Cell.str ("99/99/9999".toList) :=
  normalize_graceful_fallback (fun _ => none) ("99/99/9999".toList)
    (by decide) (by decide) (by decide) (by decide) rfl

/-- Zone suffix of claim C4's shape, modelled from the claim's words:
empty, `Z`, or a sign followed by `hh:mm`. -/
def specZone : List Char → Bool
  | [] => true
  | ['Z'] => true
  | [c, a, b, ':', d, e] =>
    (c = '+' || c = '-') && isDig a && isDig b && isDig d && isDig e
  | _ => false

/-- Core of claim C4's ISO-with-zone shape, modelled from the claim's
words: exactly `YYYY-MM-DDThh:mm:ss` followed by an optional zone. -/
def specISOCore : List Char → Bool
  | y1 :: y2 :: y3 :: y4 :: '-' :: m1 :: m2 :: '-' :: d1 :: d2 :: 'T' ::
      hr1 :: hr2 :: ':' :: mn1 :: mn2 :: ':' :: sc1 :: sc2 :: rest =>
    isDig y1 && isDig y2 && isDig y3 && isDig y4 && isDig m1 && isDig m2 &&
      isDig d1 && isDig d2 && isDig hr1 && isDig hr2 && isDig mn1 &&
      isDig mn2 && isDig sc1 && isDig sc2 && specZone rest
  | _ => false

/-- Shape test of claim C4, modelled from the claim's words; the test
tolerates surrounding whitespace. -/
def specISOShape (s : List Char) : Bool := specISOCore (pyStrip s)

lemma mem_flatMap_of (l : List (List Char)) (f : List Char → List (List Char))
    (x y : List Char) (hx : x ∈ l) (hy : y ∈ f x) : y ∈ l.flatMap f :=
  List.mem_flatMap.mpr ⟨x, hx, hy⟩

lemma self_mem_pStar (p : Char → Bool) (l : List Char) : l ∈ pStar p l := by
  cases l with
  | nil => simp [pStar]
  | cons c r =>
    rw [pStar]
    split
    · exact List.mem_cons_self _ _
    · exact List.mem_singleton.mpr rfl

lemma mem_pDotStar_append (A B : List Char)
    (h : A.all (fun c => !decide (c = '\n')) = true) :
    B ∈ pDotStar (A ++ B) := by
  induction A with
  | nil =>
    cases B with
    | nil => simp [pDotStar]
    | cons c r => rw [List.nil_append, pDotStar]; exact List.mem_cons_self _ _
  | cons c r ih =>
    rw [List.all_cons, Bool.and_eq_true] at h
    have hc : ¬(c = '\n') := by simpa using h.1
    rw [List.cons_append, pDotStar, if_neg hc]
    exact List.mem_cons_of_mem _ (ih h.2)

lemma nil_mem_pDotStar (A : List Char)
    (h : A.all (fun c => !decide (c = '\n')) = true) : [] ∈ pDotStar A := by
  have h2 := mem_pDotStar_append A [] h
  rwa [List.append_nil] at h2

lemma not_newline_of_isDig (c : Char) (h : isDig c = true) :
    (!decide (c = '\n')) = true := by
  have hne : c ≠ '\n' := by
    intro hc
    subst hc
    exact absurd h (by decide)
  simp [hne]

lemma pyIsSpace_eq_false_of_isDig (c : Char) (h : isDig c = true) :
    pyIsSpace c = false := by
  cases hc : pyIsSpace c
  · rfl
  · exfalso
    unfold pyIsSpace at hc
    simp only [Bool.or_eq_true, decide_eq_true_eq] at hc
    rcases hc with ((((h1 | h1) | h1) | h1) | h1) | h1 <;>
      (subst h1; exact absurd h (by decide))

lemma specZone_no_newline (l : List Char) (h : specZone l = true) :
    l.all (fun c => !decide (c = '\n')) = true := by
  unfold specZone at h
  split at h
  · simp
  · decide
  · rename_i c a b d e
    simp only [Bool.and_eq_true] at h
    obtain ⟨⟨⟨⟨hc, ha⟩, hb⟩, hd⟩, he⟩ := h
    simp only [List.all_cons, List.all_nil, Bool.and_eq_true]
    refine ⟨?_, not_newline_of_isDig _ ha, not_newline_of_isDig _ hb,
      by decide, not_newline_of_isDig _ hd, not_newline_of_isDig _ he, trivial⟩
    rcases (Bool.or_eq_true _ _).mp hc with h1 | h1 <;>
      (rw [decide_eq_true_eq] at h1; subst h1; decide)
  · exact absurd h (by decide)

lemma specISOCore_iso (t : List Char) (h : specISOCore t = true) :
    iso_tz_match t = true := by
  unfold specISOCore at h
  split at h
  case _ y1 y2 y3 y4 m1 m2 d1 d2 hr1 hr2 mn1 mn2 sc1 sc2 rest =>
    simp only [Bool.and_eq_true] at h
    obtain ⟨⟨⟨⟨⟨⟨⟨⟨⟨⟨⟨⟨⟨⟨hy1, hy2⟩, hy3⟩, hy4⟩, hm1⟩, hm2⟩, hd1⟩, hd2⟩,
      hh1⟩, hh2⟩, hn1⟩, hn2⟩, hs1⟩, hs2⟩, hz⟩ := h
    have hH : (hr1 :: hr2 :: ':' :: mn1 :: mn2 :: ':' :: sc1 :: sc2 ::
        rest).all (fun c => !decide (c = '\n')) = true := by
      simp only [List.all_cons, Bool.and_eq_true]
      exact ⟨not_newline_of_isDig _ hh1, not_newline_of_isDig _ hh2,
        by decide, not_newline_of_isDig _ hn1, not_newline_of_isDig _ hn2,
        by decide, not_newline_of_isDig _ hs1, not_newline_of_isDig _ hs2,
        specZone_no_newline rest hz⟩
    unfold iso_tz_match
    apply List.any_eq_true.mpr
    refine ⟨[], ?_, rfl⟩
    refine mem_flatMap_of _ _ [] _ ?_ (by simp [pStar])
    refine mem_flatMap_of _ _ [] _ ?_ (by simp [pOpt])
    refine mem_flatMap_of _ _
      (hr1 :: hr2 :: ':' :: mn1 :: mn2 :: ':' :: sc1 :: sc2 :: rest) _ ?_
      (nil_mem_pDotStar _ hH)
    refine mem_flatMap_of _ _
      ('T' :: hr1 :: hr2 :: ':' :: mn1 :: mn2 :: ':' :: sc1 :: sc2 :: rest) _ ?_
      (by simp [pChr])
    refine mem_flatMap_of _ _
      (d1 :: d2 :: 'T' :: hr1 :: hr2 :: ':' :: mn1 :: mn2 :: ':' :: sc1 ::
        sc2 :: rest) _ ?_ (by simp [pRepExact, hd1, hd2])
    refine mem_flatMap_of _ _
      ('-' :: d1 :: d2 :: 'T' :: hr1 :: hr2 :: ':' :: mn1 :: mn2 :: ':' ::
        sc1 :: sc2 :: rest) _ ?_ (by simp [pChr])
    refine mem_flatMap_of _ _
      (m1 :: m2 :: '-' :: d1 :: d2 :: 'T' :: hr1 :: hr2 :: ':' :: mn1 ::
        mn2 :: ':' :: sc1 :: sc2 :: rest) _ ?_
      (by simp [pRepExact, hm1, hm2])
    refine mem_flatMap_of _ _
      ('-' :: m1 :: m2 :: '-' :: d1 :: d2 :: 'T' :: hr1 :: hr2 :: ':' ::
        mn1 :: mn2 :: ':' :: sc1 :: sc2 :: rest) _ ?_ (by simp [pChr])
    refine mem_flatMap_of _ _
      (y1 :: y2 :: y3 :: y4 :: '-' :: m1 :: m2 :: '-' :: d1 :: d2 :: 'T' ::
        hr1 :: hr2 :: ':' :: mn1 :: mn2 :: ':' :: sc1 :: sc2 :: rest) _ ?_
      (by simp [pRepExact, hy1, hy2, hy3, hy4])
    exact self_mem_pStar _ _
  case _ => exact absurd h (by decide)

/-- C4 (amended): for every string matching the ISO-with-zone shape (the
shape test tolerating surrounding whitespace), the normalizer returns the
TRIMMED string verbatim — never re-parsed or reformatted — so
`normalize(s) = s.strip()`, which equals `s` exactly when `s` carries no
surrounding whitespace. -/
theorem iso_passthrough_amended (lenient : List Char → Option PDT)
    (sv : List Char) (h : specISOShape sv = true) :
    normalize_cell lenient (Cell.str sv) = Cell.str (pyStrip sv) := by
  unfold specISOShape at h
  have hiso : iso_tz_match (pyStrip sv) = true := specISOCore_iso _ h
  have hne : (pyStrip sv).isEmpty = false := by
    cases hps : pyStrip sv with
    | nil => rw [hps] at h; exact absurd h (by decide)
    | cons a r => rfl
  have hld : looks_like_date (pyStrip sv) = true := by
    unfold looks_like_date
    rw [hiso]
    rfl
  simp [normalize_cell, hne, hld, hiso]

/-- C4 counterexample: a whitespace-padded string passes the
whitespace-tolerant shape test, but the normalizer returns the stripped
string, so `normalize(s) ≠ s`. -/
theorem iso_passthrough_counterexample :
    specISOShape (' ' :: "2024-01-02T03:04:05Z".toList) = true ∧
      normalize_cell (fun _ => none)
          (Cell.str (' ' :: "2024-01-02T03:04:05Z".toList)) ≠
        Cell.str (' ' :: "2024-01-02T03:04:05Z".toList) := by
  exact ⟨by decide, by decide⟩

theorem iso_passthrough_witness :
    normalize_cell (fun _ => none) (Cell.str ("2024-01-02T03:04:05Z".toList)) =
      Cell.str (pyStrip ("2024-01-02T03:04:05Z".toList)) :=
  iso_passthrough_amended (fun _ => none) ("2024-01-02T03:04:05Z".toList)
    (by decide)

lemma matchHour_none_of_head (c : Char) (r : List Char) (h : isDig c = false) :
    matchHour (c :: r) = none := by
  cases r with
  | nil => rfl
  | cons b t =>
    cases t with
    | nil => simp [matchHour, h]
    | cons d u => simp [matchHour, h]

lemma matchTimeAt_none_of_head (c : Char) (r : List Char) (h : isDig c = false) :
    matchTimeAt (c :: r) = none := by
  unfold matchTimeAt
  rw [matchHour_none_of_head c r h]

lemma matchHour_none_no_colon (a b : Char) (t : List Char) (hb : ¬(b = ':'))
    (ht : ∀ y r, t = y :: r → ¬(y = ':')) :
    matchHour (a :: b :: t) = none := by
  cases t with
  | nil => simp [matchHour, hb]
  | cons y u => simp [matchHour, hb, ht y u rfl]

lemma matchTimeAt_none_no_colon (a b : Char) (t : List Char) (hb : ¬(b = ':'))
    (ht : ∀ y r, t = y :: r → ¬(y = ':')) :
    matchTimeAt (a :: b :: t) = none := by
  unfold matchTimeAt
  rw [matchHour_none_no_colon a b t hb ht]

lemma subTimeOnce_of_match (l h1 m1 : List Char) (os : Option (List Char))
    (rest : List Char) (hm : matchTimeAt l = some (h1, m1, os, rest)) :
    subTimeOnce l = timeRepl h1 m1 os ++ rest := by
  cases l with
  | nil => simp [matchTimeAt, matchHour] at hm
  | cons c r => rw [subTimeOnce, hm]

/-- No `TIME_REGEX` match can start inside a prefix that contains no
colon and ends in a space, so the single substitution of
`_fix_invalid_time` passes such a prefix through untouched. -/
lemma subTimeOnce_append (d : List Char) :
    ∀ rest, ':' ∉ d → d.getLast? = some ' ' →
      (∀ y r, rest = y :: r → isDig y = true) →
      subTimeOnce (d ++ rest) = d ++ subTimeOnce rest := by
  induction d with
  | nil => intro rest h1 h2 h3; simp at h2
  | cons c cs ih =>
    intro rest h1 h2 h3
    cases cs with
    | nil =>
      have hc : c = ' ' := by simpa using h2
      subst hc
      show subTimeOnce (' ' :: rest) = ' ' :: subTimeOnce rest
      rw [subTimeOnce, matchTimeAt_none_of_head ' ' rest (by decide)]
    | cons b bs =>
      have hb : ¬(b = ':') := by
        intro hbe
        exact h1 (by rw [← hbe]; simp)
      have ht : ∀ y r, (bs ++ rest) = y :: r → ¬(y = ':') := by
        intro y r hyr hy
        subst hy
        cases bs with
        | nil =>
          rw [List.nil_append] at hyr
          exact absurd (h3 ':' r hyr) (by decide)
        | cons e es =>
          rw [List.cons_append] at hyr
          injection hyr with he hr
          exact h1 (by rw [he]; simp)
      have hcol : ':' ∉ b :: bs := fun hm => h1 (List.mem_cons_of_mem _ hm)
      have hlast : (b :: bs).getLast? = some ' ' := by
        rwa [List.getLast?_cons_cons] at h2
      have hih : subTimeOnce (b :: (bs ++ rest)) = b :: (bs ++ subTimeOnce rest) := by
        have h4 := ih rest hcol hlast h3
        simpa only [List.cons_append] using h4
      show subTimeOnce (c :: (b :: (bs ++ rest))) = c :: (b :: (bs ++ subTimeOnce rest))
      rw [subTimeOnce, matchTimeAt_none_no_colon c b (bs ++ rest) hb ht, hih]

lemma list12 (l : List Char) (h : l.length = 1 ∨ l.length = 2) :
    (∃ a, l = [a]) ∨ ∃ a b, l = [a, b] := by
  rcases l with _ | ⟨a, _ | ⟨b, _ | ⟨c, t⟩⟩⟩
  · simp at h
  · exact Or.inl ⟨a, rfl⟩
  · exact Or.inr ⟨a, b, rfl⟩
  · exfalso
    simp only [List.length_cons] at h
    omega

lemma eq_colon_iff_of_isDig (c : Char) (h : isDig c = true) : (c = ':') = False :=
  eq_false (fun hc => by subst hc; exact absurd h (by decide))

lemma matchTimeAt_with_sec (hd md sd : List Char)
    (hhd : hd.all isDig = true) (hhl : hd.length = 1 ∨ hd.length = 2)
    (hmd : md.all isDig = true) (hml : md.length = 1 ∨ md.length = 2)
    (hsd : sd.all isDig = true) (hsl : sd.length = 1 ∨ sd.length = 2) :
    matchTimeAt (hd ++ ':' :: (md ++ ':' :: sd)) = some (hd, md, some sd, []) := by
  have hcolon : isDig ':' = false := rfl
  rcases list12 hd hhl with ⟨a, rfl⟩ | ⟨a, b, rfl⟩ <;>
    rcases list12 md hml with ⟨c, rfl⟩ | ⟨c, d, rfl⟩ <;>
    rcases list12 sd hsl with ⟨e, rfl⟩ | ⟨e, f, rfl⟩ <;>
    simp_all [matchTimeAt, matchHour, readDig12, matchSecPart, List.all_cons,
      List.cons_append, List.nil_append, eq_colon_iff_of_isDig]

lemma matchTimeAt_no_sec (hd md : List Char)
    (hhd : hd.all isDig = true) (hhl : hd.length = 1 ∨ hd.length = 2)
    (hmd : md.all isDig = true) (hml : md.length = 1 ∨ md.length = 2) :
    matchTimeAt (hd ++ ':' :: md) = some (hd, md, none, []) := by
  have hcolon : isDig ':' = false := rfl
  rcases list12 hd hhl with ⟨a, rfl⟩ | ⟨a, b, rfl⟩ <;>
    rcases list12 md hml with ⟨c, rfl⟩ | ⟨c, d, rfl⟩ <;>
    simp_all [matchTimeAt, matchHour, readDig12, matchSecPart, List.all_cons,
      List.cons_append, List.nil_append, eq_colon_iff_of_isDig]

lemma digitVal_decChar (n : ℕ) (h : n < 10) : digitVal (decChar n) = n := by
  interval_cases n <;> rfl

lemma digitsToNat_pair (a b : Char) :
    digitsToNat [a, b] = digitVal a * 10 + digitVal b := by
  show (0 * 10 + digitVal a) * 10 + digitVal b = _
  omega

lemma decDigitsCore_lt_10 (fuel n : ℕ) (acc : List Char) (h : n < 10) :
    decDigitsCore (fuel + 1) n acc = decChar n :: acc := by
  simp [decDigitsCore, h]

lemma decDigitsCore_ge (fuel n : ℕ) (acc : List Char) (h1 : 10 ≤ n)
    (h2 : n < 100) (hf : 1 ≤ fuel) :
    decDigitsCore (fuel + 1) n acc = decChar (n / 10) :: decChar (n % 10) :: acc := by
  rw [decDigitsCore, if_neg (by omega)]
  obtain ⟨f, rfl⟩ : ∃ f, fuel = f + 1 := ⟨fuel - 1, by omega⟩
  rw [decDigitsCore, if_pos (by omega)]

lemma clamp_2d_spec (l : List Char) (maxv : ℕ) (hm : maxv < 100) :
    digitsToNat (clamp_2d l maxv) = min maxv (pyIntOrZero l) ∧
      (clamp_2d l maxv).length = 2 := by
  have hvle : min maxv (pyIntOrZero l) < 100 :=
    Nat.lt_of_le_of_lt (Nat.min_le_left _ _) hm
  unfold clamp_2d
  rw [Nat.zero_max]
  by_cases h10 : min maxv (pyIntOrZero l) < 10
  · have hd : decDigits (min maxv (pyIntOrZero l)) =
        [decChar (min maxv (pyIntOrZero l))] :=
      decDigitsCore_lt_10 _ _ [] h10
    rw [hd]
    constructor
    · show digitsToNat ('0' :: decChar (min maxv (pyIntOrZero l)) :: []) = _
      rw [show ('0' :: decChar (min maxv (pyIntOrZero l)) :: []) =
        ['0', decChar (min maxv (pyIntOrZero l))] from rfl, digitsToNat_pair,
        digitVal_decChar _ h10, show digitVal '0' = 0 from rfl]
      omega
    · rfl
  · have hge : 10 ≤ min maxv (pyIntOrZero l) := by omega
    have hd : decDigits (min maxv (pyIntOrZero l)) =
        [decChar (min maxv (pyIntOrZero l) / 10),
          decChar (min maxv (pyIntOrZero l) % 10)] :=
      decDigitsCore_ge _ _ [] hge hvle (by omega)
    rw [hd]
    constructor
    · show digitsToNat [decChar (min maxv (pyIntOrZero l) / 10),
        decChar (min maxv (pyIntOrZero l) % 10)] = _
      rw [digitsToNat_pair, digitVal_decChar _ (by omega),
        digitVal_decChar _ (by omega)]
      omega
    · rfl

/-- C5: on a date-candidate shaped as a colon-free prefix ending in a
space followed by a well-shaped `H:M[:S]` time at the end, the time
repair of the normalizer replaces exactly the time fields: each captured
field is parsed (or zero on failure) and clamped — hour into `[0, 23]`,
minute and second into `[0, 59]`, each independently — and re-rendered as
two-digit zero-padded fields in the same sub-pattern shape, with seconds
if and only if the original had seconds; the prefix is untouched.  The
last five conjuncts state the clamp ranges and two-digit rendering. -/
theorem time_clamp (dpre hd md sd : List Char)
    (hcol : ':' ∉ dpre) (hlast : dpre.getLast? = some ' ')
    (hhd : hd.all isDig = true) (hhl : hd.length = 1 ∨ hd.length = 2)
    (hmd : md.all isDig = true) (hml : md.length = 1 ∨ md.length = 2)
    (hsd : sd.all isDig = true) (hsl : sd.length = 1 ∨ sd.length = 2) :
    fix_invalid_time (dpre ++ (hd ++ ':' :: (md ++ ':' :: sd))) =
        dpre ++ (clamp_2d hd 23 ++ ':' :: (clamp_2d md 59 ++ ':' :: clamp_2d sd 59)) ∧
      fix_invalid_time (dpre ++ (hd ++ ':' :: md)) =
        dpre ++ (clamp_2d hd 23 ++ ':' :: clamp_2d md 59) ∧
      digitsToNat (clamp_2d hd 23) = min 23 (pyIntOrZero hd) ∧
      digitsToNat (clamp_2d md 59) = min 59 (pyIntOrZero md) ∧
      digitsToNat (clamp_2d sd 59) = min 59 (pyIntOrZero sd) ∧
      (clamp_2d hd 23).length = 2 ∧
      (clamp_2d md 59).length = 2 ∧
      (clamp_2d sd 59).length = 2 := by
  have hc1 := clamp_2d_spec hd 23 (by omega)
  have hc2 := clamp_2d_spec md 59 (by omega)
  have hc3 := clamp_2d_spec sd 59 (by omega)
  have hne : hd ≠ [] := by
    rcases hhl with h | h <;> (intro he; rw [he] at h; simp at h)
  have hheadX : ∀ X y r, (hd ++ X) = y :: r → isDig y = true := by
    intro X y r h
    rcases hd with _ | ⟨a, t⟩
    · exact absurd rfl hne
    · rw [List.cons_append] at h
      injection h with h1 h2
      have hh2 := hhd
      rw [List.all_cons, Bool.and_eq_true] at hh2
      rw [← h1]
      exact hh2.1
  refine ⟨?_, ?_, hc1.1, hc2.1, hc3.1, hc1.2, hc2.2, hc3.2⟩
  · show subTimeOnce (dpre ++ (hd ++ ':' :: (md ++ ':' :: sd))) = _
    rw [subTimeOnce_append dpre _ hcol hlast (hheadX _),
      subTimeOnce_of_match _ hd md (some sd) []
        (matchTimeAt_with_sec hd md sd hhd hhl hmd hml hsd hsl)]
    simp [timeRepl]
  · show subTimeOnce (dpre ++ (hd ++ ':' :: md)) = _
    rw [subTimeOnce_append dpre _ hcol hlast (hheadX _),
      subTimeOnce_of_match _ hd md none []
        (matchTimeAt_no_sec hd md hhd hhl hmd hml)]
    simp [timeRepl]

theorem time_clamp_witness :
    fix_invalid_time ("32/13/2023 ".toList ++
        (['2', '5'] ++ ':' :: (['7', '5'] ++ ':' :: ['9', '9']))) =
        "32/13/2023 ".toList ++ (clamp_2d ['2', '5'] 23 ++
          ':' :: (clamp_2d ['7', '5'] 59 ++ ':' :: clamp_2d ['9', '9'] 59)) ∧
      fix_invalid_time ("32/13/2023 ".toList ++ (['2', '5'] ++ ':' :: ['7', '5'])) =
        "32/13/2023 ".toList ++ (clamp_2d ['2', '5'] 23 ++ ':' :: clamp_2d ['7', '5'] 59) ∧
      digitsToNat (clamp_2d ['2', '5'] 23) = min 23 (pyIntOrZero ['2', '5']) ∧
      digitsToNat (clamp_2d ['7', '5'] 59) = min 59 (pyIntOrZero ['7', '5']) ∧
      digitsToNat (clamp_2d ['9', '9'] 59) = min 59 (pyIntOrZero ['9', '9']) ∧
      (clamp_2d ['2', '5'] 23).length = 2 ∧
      (clamp_2d ['7', '5'] 59).length = 2 ∧
      (clamp_2d ['9', '9'] 59).length = 2 :=
  time_clamp ("32/13/2023 ".toList) ['2', '5'] ['7', '5'] ['9', '9']
    (by decide) (by decide) (by decide) (by decide) (by decide) (by decide)
    (by decide) (by decide)
